import Mathlib

/-!
Verification of the suggestion pipeline of `psychopy_ai_coder_assistant`.

The Lean definitions below are a shallow embedding of the Python sources:

* `src/psychopy_ai_coder_assistant/analyzer.py`   (suggestion aggregation and
  the analysis orchestrator),
* `src/psychopy_ai_coder_assistant/security.py`   (code sanitizer and privacy
  risk scoring),
* `src/psychopy_ai_coder_assistant/prompts.py`    (prompt builder).

Python `str` values are modelled by Lean `String` (or by `List Char` where
code-point indexing matters, matching Python's code-point string model),
Python `int` by `Int` or `Nat`, Python `dict` by insertion-ordered
association lists (Python 3.7+ dictionaries preserve insertion order),
Python `float` wall-clock durations by `ℚ`, and raised exceptions by
`Except`.  `list.sort(key=...)` (Timsort) is modelled by Mathlib's
`List.insertionSort`: both are stable sorts with respect to the same total
preorder on sort keys, and a stable sort of a list is unique, so the two
produce identical output on every input.
-/

/-- `CodeSuggestion` dataclass of `analyzer.py`. -/
structure CodeSuggestion where
  category : String
  title : String
  description : String
  original_code : String
  improved_code : String
  line_numbers : List Nat
  priority : Int
deriving DecidableEq, Repr

/-- `AnalysisResult` dataclass of `analyzer.py`; `analysis_time` is a
wall-clock duration in seconds, modelled as a rational. -/
structure AnalysisResult where
  summary : String
  suggestions : List CodeSuggestion
  success : Bool
  error_message : Option String := none
  analysis_time : ℚ := 0
deriving DecidableEq, Repr

/-- The dedup key `(s.category, s.original_code)` used in
`_filter_and_prioritize`. -/
def skey (s : CodeSuggestion) : String × String :=
  (s.category, s.original_code)

/-- Insertion-ordered association list modelling the Python dict
`best_map : Dict[tuple, CodeSuggestion]`. -/
abbrev BestMap := List ((String × String) × CodeSuggestion)

/-- `best_map.get(key)` on the insertion-ordered dict model. -/
def dictGet (m : BestMap) (k : String × String) : Option CodeSuggestion :=
  match m with
  | [] => none
  | (k', v) :: rest => if k' = k then some v else dictGet rest k

/-- `best_map[key] = v`: updates in place when the key is present (keeping
its insertion position, as Python dicts do), otherwise appends. -/
def dictInsert (m : BestMap) (k : String × String) (v : CodeSuggestion) : BestMap :=
  match m with
  | [] => [(k, v)]
  | (k', v') :: rest =>
      if k' = k then (k', v) :: rest else (k', v') :: dictInsert rest k v

/-- One iteration of the dedup loop of `_filter_and_prioritize`:
`if current is None or s.priority > current.priority: best_map[key] = s`. -/
def dedupStepFn (m : BestMap) (s : CodeSuggestion) : BestMap :=
  match dictGet m (skey s) with
  | none => dictInsert m (skey s) s
  | some current =>
      if current.priority < s.priority then dictInsert m (skey s) s else m

/-- The fully built `best_map` after the dedup loop. -/
def buildBestMap (suggestions : List CodeSuggestion) : BestMap :=
  suggestions.foldl dedupStepFn []

/-- `filtered = list(best_map.values())`: the dedup step's output, before
sorting and truncation. -/
def dedupValues (suggestions : List CodeSuggestion) : List CodeSuggestion :=
  (buildBestMap suggestions).map (·.2)

/-- Python's string comparison: lexicographic `<=` on code points, i.e.
on the strings' character lists. -/
def charListLe : List Char → List Char → Bool
  | [], _ => true
  | _ :: _, [] => false
  | a :: as, b :: bs =>
      if a < b then true else if b < a then false else charListLe as bs

theorem charListLe_refl (x : List Char) : charListLe x x = true := by
  induction x with
  | nil => rfl
  | cons a as ih => simp [charListLe, ih]

theorem charListLe_total (x y : List Char) :
    charListLe x y = true ∨ charListLe y x = true := by
  induction x generalizing y with
  | nil => exact Or.inl rfl
  | cons a as ih =>
      cases y with
      | nil => exact Or.inr rfl
      | cons b bs =>
          by_cases h1 : a < b
          · exact Or.inl (by simp [charListLe, h1])
          · by_cases h2 : b < a
            · exact Or.inr (by simp [charListLe, h1, h2])
            · rcases ih bs with h | h
              · exact Or.inl (by simp [charListLe, h1, h2, h])
              · exact Or.inr (by simp [charListLe, h1, h2, h])

theorem charListLe_antisymm (x y : List Char) (hxy : charListLe x y = true)
    (hyx : charListLe y x = true) : x = y := by
  induction x generalizing y with
  | nil =>
      cases y with
      | nil => rfl
      | cons b bs => simp [charListLe] at hyx
  | cons a as ih =>
      cases y with
      | nil => simp [charListLe] at hxy
      | cons b bs =>
          by_cases h1 : a < b
          · simp [charListLe, h1, lt_asymm h1] at hyx
          · by_cases h2 : b < a
            · simp [charListLe, h1, h2] at hxy
            · have hab : a = b := le_antisymm (le_of_not_lt h2) (le_of_not_lt h1)
              simp [charListLe, h1, h2] at hxy hyx
              rw [hab, ih bs hxy hyx]

theorem charListLe_trans (x y z : List Char) (hxy : charListLe x y = true)
    (hyz : charListLe y z = true) : charListLe x z = true := by
  induction x generalizing y z with
  | nil => rfl
  | cons a as ih =>
      cases y with
      | nil => simp [charListLe] at hxy
      | cons b bs =>
          cases z with
          | nil => simp [charListLe] at hyz
          | cons c cs =>
              by_cases hab : a < b
              · by_cases hbc : b < c
                · simp [charListLe, lt_trans hab hbc]
                · by_cases hcb : c < b
                  · simp [charListLe, hbc, hcb] at hyz
                  · have hbc' : b = c := le_antisymm (le_of_not_lt hcb) (le_of_not_lt hbc)
                    simp [charListLe, hbc' ▸ hab]
              · by_cases hba : b < a
                · simp [charListLe, hab, hba] at hxy
                · have hab' : a = b := le_antisymm (le_of_not_lt hba) (le_of_not_lt hab)
                  simp [charListLe, hab, hba] at hxy
                  by_cases hbc : b < c
                  · simp [charListLe, hab' ▸ hbc]
                  · by_cases hcb : c < b
                    · simp [charListLe, hbc, hcb] at hyz
                    · have hbc' : b = c := le_antisymm (le_of_not_lt hcb) (le_of_not_lt hbc)
                      have hac : a = c := hab'.trans hbc'
                      subst hac
                      simp [charListLe, hbc, hcb] at hyz
                      simp [charListLe, ih bs cs hxy hyz]

/-- The comparison underlying `filtered.sort(key=lambda x:
(-x.priority, x.category, x.title))`: lexicographic `<=` on the key tuples
(Python compares tuples lexicographically and strings by code points). -/
def keyLeB (a b : CodeSuggestion) : Bool :=
  if (-a.priority) < (-b.priority) then true
  else if (-b.priority) < (-a.priority) then false
  else if a.category = b.category then charListLe a.title.data b.title.data
  else charListLe a.category.data b.category.data

/-- The sort key of a suggestion. -/
def sortTriple (s : CodeSuggestion) : Int × String × String :=
  (-s.priority, s.category, s.title)

/-- Propositional form of the sort comparison. -/
def keyRel (a b : CodeSuggestion) : Prop := keyLeB a b = true

instance : DecidableRel keyRel := fun a b =>
  inferInstanceAs (Decidable (keyLeB a b = true))

instance : IsTotal CodeSuggestion keyRel :=
  ⟨fun a b => by
    unfold keyRel keyLeB
    by_cases h1 : (-a.priority) < (-b.priority)
    · exact Or.inl (by simp [h1])
    · by_cases h2 : (-b.priority) < (-a.priority)
      · exact Or.inr (by simp [h1, h2])
      · by_cases h3 : a.category = b.category
        · rcases charListLe_total a.title.data b.title.data with h | h
          · exact Or.inl (by simp [h1, h2, h3, h])
          · exact Or.inr (by simp [h1, h2, h3.symm, h])
        · have h3' : ¬b.category = a.category := fun hh => h3 hh.symm
          rcases charListLe_total a.category.data b.category.data with h | h
          · exact Or.inl (by simp [h1, h2, h3, h])
          · exact Or.inr (by simp [h1, h2, h3', h])⟩

theorem keyLeB_priority_le (a b : CodeSuggestion) (hab : keyLeB a b = true) :
    (-a.priority) ≤ (-b.priority) := by
  unfold keyLeB at hab
  by_cases h1 : (-a.priority) < (-b.priority)
  · omega
  · by_cases h2 : (-b.priority) < (-a.priority)
    · simp [h1, h2] at hab
    · omega

instance : IsTrans CodeSuggestion keyRel :=
  ⟨fun a b c hab hbc => by
    unfold keyRel at *
    have hpab := keyLeB_priority_le a b hab
    have hpbc := keyLeB_priority_le b c hbc
    unfold keyLeB at *
    by_cases h1 : (-a.priority) < (-c.priority)
    · simp [h1]
    · have e1 : ¬(-a.priority) < (-b.priority) := by omega
      have e2 : ¬(-b.priority) < (-a.priority) := by omega
      have e3 : ¬(-b.priority) < (-c.priority) := by omega
      have e4 : ¬(-c.priority) < (-b.priority) := by omega
      have e5 : ¬(-c.priority) < (-a.priority) := by omega
      simp only [e1, e2, if_false, if_true] at hab
      simp only [e3, e4, if_false, if_true] at hbc
      simp only [h1, e5, if_false, if_true]
      by_cases hc1 : a.category = b.category
      · simp only [hc1, if_true, if_pos] at hab
        by_cases hc2 : b.category = c.category
        · have hac : a.category = c.category := hc1.trans hc2
          simp only [hc2, if_pos] at hbc
          simp only [hac, if_pos]
          exact charListLe_trans _ _ _ hab hbc
        · have hac : ¬a.category = c.category := by rw [hc1]; exact hc2
          simp only [hc2, if_neg, hac] at *
          rw [hc1]
          exact hbc
      · simp only [hc1, if_neg] at hab
        by_cases hc2 : b.category = c.category
        · have hac : ¬a.category = c.category := by rw [← hc2]; exact hc1
          simp only [hac, if_neg]
          rw [← hc2]
          exact hab
        · simp only [hc2, if_neg] at hbc
          have hcat := charListLe_trans _ _ _ hab hbc
          by_cases hac : a.category = c.category
          · exfalso
            have h4 := hab
            rw [congrArg String.data hac] at h4
            exact hc2 (String.ext (charListLe_antisymm _ _ hbc h4))
          · simp only [hac, if_neg]
            exact hcat⟩

/-- The sort comparison is antisymmetric on sort keys: mutually comparable
records have identical `(-priority, category, title)` triples. -/
theorem keyLeB_antisymm (a b : CodeSuggestion) (hab : keyLeB a b = true)
    (hba : keyLeB b a = true) : sortTriple a = sortTriple b := by
  have hpab := keyLeB_priority_le a b hab
  have hpba := keyLeB_priority_le b a hba
  have hp : a.priority = b.priority := by omega
  unfold keyLeB at hab hba
  have e1 : ¬(-a.priority) < (-b.priority) := by omega
  have e2 : ¬(-b.priority) < (-a.priority) := by omega
  simp only [e1, e2, if_false, if_true] at hab hba
  by_cases hc : a.category = b.category
  · simp only [hc, if_pos] at hab
    simp only [hc.symm, if_pos] at hba
    have ht : a.title = b.title := String.ext (charListLe_antisymm _ _ hab hba)
    unfold sortTriple
    rw [hp, hc, ht]
  · exfalso
    have hc' : ¬b.category = a.category := fun hh => hc hh.symm
    rw [if_neg hc] at hab
    rw [if_neg hc'] at hba
    exact hc (String.ext (charListLe_antisymm _ _ hab hba))

/-- `_filter_and_prioritize` of `analyzer.py`: dedup by `(category,
original_code)` keeping the highest priority (strict `>` comparison), sort
by `(-priority, category, title)` (stable), truncate to 10. -/
def filter_and_prioritize (suggestions : List CodeSuggestion) : List CodeSuggestion :=
  ((dedupValues suggestions).insertionSort keyRel).take 10

/-- The input records sharing a given dedup key, in input order. -/
def groupOf (key : String × String) (l : List CodeSuggestion) : List CodeSuggestion :=
  l.filter fun s => decide (skey s = key)

/-- The record the dedup loop retains out of `c` followed by group `g`:
left fold that replaces the accumulator only on strictly greater priority. -/
def combine (c : CodeSuggestion) (g : List CodeSuggestion) : CodeSuggestion :=
  g.foldl (fun acc t => if acc.priority < t.priority then t else acc) c

theorem dictGet_dictInsert_self (m : BestMap) (k : String × String) (v : CodeSuggestion) :
    dictGet (dictInsert m k v) k = some v := by
  induction m with
  | nil => simp [dictInsert, dictGet]
  | cons e rest ih =>
      by_cases h : e.1 = k
      · simp [dictInsert, dictGet, h]
      · simp [dictInsert, dictGet, h, ih]

theorem dictGet_dictInsert_ne (m : BestMap) (k k' : String × String) (v : CodeSuggestion)
    (h : k' ≠ k) : dictGet (dictInsert m k v) k' = dictGet m k' := by
  have hk : k ≠ k' := fun hh => h hh.symm
  induction m with
  | nil => simp [dictInsert, dictGet, hk]
  | cons e rest ih =>
      by_cases he : e.1 = k
      · have hne : e.1 ≠ k' := by rw [he]; exact hk
        simp [dictInsert, dictGet, he, hne, hk]
      · by_cases he' : e.1 = k'
        · simp [dictInsert, dictGet, he, he', h, hk]
        · simp [dictInsert, dictGet, he, he', ih]

/-- Well-formedness of the dict model: each stored value sits at its own
dedup key. -/
def MapWF (m : BestMap) : Prop := ∀ e ∈ m, e.1 = skey e.2

/-- The dict's keys are pairwise distinct. -/
def KeysNodup (m : BestMap) : Prop := (m.map (·.1)).Nodup

theorem mem_dictInsert (m : BestMap) (k : String × String) (v : CodeSuggestion) :
    ∀ e ∈ dictInsert m k v, e ∈ m ∨ e = (k, v) := by
  induction m with
  | nil => simp [dictInsert]
  | cons e₀ rest ih =>
      by_cases h : e₀.1 = k
      · intro e he
        simp only [dictInsert, if_pos h] at he
        rcases List.mem_cons.mp he with h' | h'
        · right; rw [h', ← h]
        · left; exact List.mem_cons_of_mem _ h'
      · intro e he
        simp only [dictInsert, if_neg h] at he
        rcases List.mem_cons.mp he with h' | h'
        · left; exact h' ▸ List.mem_cons_self _ _
        · rcases ih e h' with h'' | h''
          · left; exact List.mem_cons_of_mem _ h''
          · right; exact h''

theorem map_fst_dictInsert (m : BestMap) (k : String × String) (v : CodeSuggestion) :
    (dictInsert m k v).map (·.1) =
      if k ∈ m.map (·.1) then m.map (·.1) else m.map (·.1) ++ [k] := by
  induction m with
  | nil => simp [dictInsert]
  | cons e rest ih =>
      by_cases h : e.1 = k
      · simp [dictInsert, h]
      · simp only [dictInsert, if_neg h, List.map_cons, ih]
        by_cases hk : k ∈ rest.map (·.1)
        · simp [hk, Ne.symm h]
        · simp [hk, Ne.symm h]

theorem keysNodup_dictInsert (m : BestMap) (k : String × String) (v : CodeSuggestion)
    (h : KeysNodup m) : KeysNodup (dictInsert m k v) := by
  unfold KeysNodup at *
  rw [map_fst_dictInsert]
  by_cases hk : k ∈ m.map (·.1)
  · simpa [hk] using h
  · simpa [hk] using (List.nodup_append.mpr ⟨h, List.nodup_singleton _, by simpa using hk⟩)

theorem wf_dedupStepFn (m : BestMap) (s : CodeSuggestion) (hwf : MapWF m)
    (hnd : KeysNodup m) : MapWF (dedupStepFn m s) ∧ KeysNodup (dedupStepFn m s) := by
  have hins : MapWF (dictInsert m (skey s) s) ∧ KeysNodup (dictInsert m (skey s) s) := by
    refine ⟨fun e he => ?_, keysNodup_dictInsert m _ s hnd⟩
    rcases mem_dictInsert m (skey s) s e he with h | h
    · exact hwf e h
    · rw [h]
  unfold dedupStepFn
  cases dictGet m (skey s) with
  | none => simpa using hins
  | some c =>
      by_cases h : c.priority < s.priority
      · simpa [h] using hins
      · simpa [h] using ⟨hwf, hnd⟩

theorem filter_values_of_not_mem (m : BestMap) (key : String × String)
    (hwf : MapWF m) (hk : key ∉ m.map (·.1)) :
    (m.map (·.2)).filter (fun s => decide (skey s = key)) = [] := by
  induction m with
  | nil => simp
  | cons e rest ih =>
      have h1 : e.1 ≠ key := by intro h; exact hk (by simp [h])
      have h2 : skey e.2 ≠ key := by
        rw [← hwf e (List.mem_cons_self _ _)]; exact h1
      have h3 : key ∉ rest.map (·.1) := fun h => hk (List.mem_cons_of_mem _ h)
      simp only [List.map_cons, List.filter_cons]
      rw [if_neg (by simpa using h2)]
      exact ih (fun e' he' => hwf e' (List.mem_cons_of_mem _ he')) h3

theorem filter_values_eq_get (m : BestMap) (key : String × String)
    (hwf : MapWF m) (hnd : KeysNodup m) :
    (m.map (·.2)).filter (fun s => decide (skey s = key)) = (dictGet m key).toList := by
  induction m with
  | nil => simp [dictGet]
  | cons e rest ih =>
      have hwf' : MapWF rest := fun e' he' => hwf e' (List.mem_cons_of_mem _ he')
      have hnd' : KeysNodup rest := (List.nodup_cons.mp hnd).2
      by_cases h : e.1 = key
      · have hv : skey e.2 = key := by
          rw [← hwf e (List.mem_cons_self _ _)]; exact h
        have hk : key ∉ rest.map (·.1) := by
          have h0 : e.1 ∉ rest.map (·.1) := (List.nodup_cons.mp hnd).1
          rw [h] at h0; exact h0
        simp only [List.map_cons, List.filter_cons]
        rw [if_pos (by simpa using hv), filter_values_of_not_mem rest key hwf' hk]
        simp [dictGet, h]
      · have hv : skey e.2 ≠ key := by
          rw [← hwf e (List.mem_cons_self _ _)]; exact h
        simp only [List.map_cons, List.filter_cons]
        rw [if_neg (by simpa using hv), ih hwf' hnd']
        simp [dictGet, h]

theorem combine_cons (c t : CodeSuggestion) (g : List CodeSuggestion) :
    combine c (t :: g) = combine (if c.priority < t.priority then t else c) g := rfl

/-- What `dictGet` returns after folding the dedup loop over `l`, in terms
of the key's group in `l`. -/
theorem dictGet_foldl (key : String × String) :
    ∀ (l : List CodeSuggestion) (m : BestMap),
      dictGet (l.foldl dedupStepFn m) key =
        match dictGet m key with
        | some c => some (combine c (groupOf key l))
        | none =>
            match groupOf key l with
            | [] => none
            | s :: rest => some (combine s rest) := by
  intro l
  induction l with
  | nil =>
      intro m
      cases h : dictGet m key <;> simp [groupOf, combine, h]
  | cons s l ih =>
      intro m
      rw [List.foldl_cons, ih (dedupStepFn m s)]
      by_cases hks : skey s = key
      · have hgrp : groupOf key (s :: l) = s :: groupOf key l := by
          simp [groupOf, List.filter_cons, hks]
        cases h : dictGet m key with
        | none =>
            have hthis : dictGet (dedupStepFn m s) key = some s := by
              unfold dedupStepFn
              rw [hks, h]
              exact dictGet_dictInsert_self m key s
            rw [hthis, hgrp]
        | some c =>
            have hthis : dictGet (dedupStepFn m s) key =
                some (if c.priority < s.priority then s else c) := by
              unfold dedupStepFn
              rw [hks, h]
              dsimp only
              by_cases hp : c.priority < s.priority
              · rw [if_pos hp, if_pos hp, dictGet_dictInsert_self]
              · rw [if_neg hp, if_neg hp, h]
            rw [hthis, hgrp]
            dsimp only
            rw [combine_cons]
      · have hgrp : groupOf key (s :: l) = groupOf key l := by
          simp [groupOf, List.filter_cons, hks]
        have hget : dictGet (dedupStepFn m s) key = dictGet m key := by
          unfold dedupStepFn
          cases hg : dictGet m (skey s) with
          | none => exact dictGet_dictInsert_ne m (skey s) key s (fun hh => hks hh.symm)
          | some c =>
              dsimp only
              by_cases hp : c.priority < s.priority
              · rw [if_pos hp]
                exact dictGet_dictInsert_ne m (skey s) key s (fun hh => hks hh.symm)
              · rw [if_neg hp]
        rw [hget, hgrp]

/-- The retained record is one of the group's records. -/
theorem combine_mem (c : CodeSuggestion) (g : List CodeSuggestion) :
    combine c g ∈ c :: g := by
  induction g generalizing c with
  | nil => simp [combine]
  | cons t g ih =>
      rw [combine_cons]
      by_cases hp : c.priority < t.priority
      · rw [if_pos hp]
        exact List.mem_cons_of_mem _ (ih t)
      · rw [if_neg hp]
        rcases List.mem_cons.mp (ih c) with h' | h'
        · rw [h']
          exact List.mem_cons_self _ _
        · exact List.mem_cons_of_mem _ (List.mem_cons_of_mem _ h')

/-- The retained record's priority bounds every group member's priority. -/
theorem combine_le (c : CodeSuggestion) (g : List CodeSuggestion) :
    ∀ u ∈ c :: g, u.priority ≤ (combine c g).priority := by
  induction g generalizing c with
  | nil => simp [combine]
  | cons t g ih =>
      intro u hu
      rw [combine_cons]
      by_cases hp : c.priority < t.priority
      · rw [if_pos hp]
        rcases List.mem_cons.mp hu with h | h
        · subst h
          exact le_trans (le_of_lt hp) (ih t t (List.mem_cons_self _ _))
        · exact ih t u h
      · rw [if_neg hp]
        rcases List.mem_cons.mp hu with h | h
        · rw [h]
          exact ih c c (List.mem_cons_self _ _)
        · rcases List.mem_cons.mp h with h' | h'
          · rw [h']
            exact le_trans (not_lt.mp hp) (ih c c (List.mem_cons_self _ _))
          · exact ih c u (List.mem_cons_of_mem _ h')

/-- The retained record is the FIRST group member attaining the maximal
priority: everything before it in the group has strictly smaller priority
(this is the `>` versus `>=` distinction of the claim). -/
theorem combine_first (c : CodeSuggestion) (g : List CodeSuggestion) :
    ∃ pre post, c :: g = pre ++ combine c g :: post ∧
      ∀ u ∈ pre, u.priority < (combine c g).priority := by
  induction g generalizing c with
  | nil => exact ⟨[], [], by simp [combine], by simp⟩
  | cons t g ih =>
      by_cases hp : c.priority < t.priority
      · have hc : combine c (t :: g) = combine t g := by rw [combine_cons, if_pos hp]
        rw [hc]
        obtain ⟨pre, post, hsplit, hlt⟩ := ih t
        refine ⟨c :: pre, post, ?_, ?_⟩
        · rw [List.cons_append, ← hsplit]
        · intro u hu
          rcases List.mem_cons.mp hu with h | h
          · subst h
            exact lt_of_lt_of_le hp (combine_le t g t (List.mem_cons_self _ _))
          · exact hlt u h
      · have hc : combine c (t :: g) = combine c g := by rw [combine_cons, if_neg hp]
        rw [hc]
        obtain ⟨pre, post, hsplit, hlt⟩ := ih c
        cases pre with
        | nil =>
            simp only [List.nil_append] at hsplit
            obtain ⟨h1, _⟩ := List.cons.inj hsplit
            refine ⟨[], t :: g, ?_, by simp⟩
            rw [List.nil_append, ← h1]
        | cons p pre' =>
            simp only [List.cons_append, List.cons.injEq] at hsplit
            obtain ⟨hpc, hsplit'⟩ := hsplit
            refine ⟨c :: t :: pre', post, ?_, ?_⟩
            · conv_lhs => rw [hsplit']
              simp
            · intro u hu
              rcases List.mem_cons.mp hu with h | h
              · subst h
                have h0 := hlt p (List.mem_cons_self _ _)
                rw [← hpc] at h0
                exact h0
              · rcases List.mem_cons.mp h with h' | h'
                · subst h'
                  have hcp := hlt p (List.mem_cons_self _ _)
                  rw [← hpc] at hcp
                  exact lt_of_le_of_lt (not_lt.mp hp) hcp
                · exact hlt u (List.mem_cons_of_mem _ h')

theorem find?_append_cons {α : Type} (p : α → Bool) (pre : List α) (r : α) (post : List α)
    (hpre : ∀ x ∈ pre, p x = false) (hr : p r = true) :
    (pre ++ r :: post).find? p = some r := by
  induction pre with
  | nil => simp [List.find?, hr]
  | cons a pre ih =>
      rw [List.cons_append]
      have ha : p a = false := hpre a (List.mem_cons_self _ _)
      simp only [List.find?, ha]
      exact ih fun x hx => hpre x (List.mem_cons_of_mem _ hx)

/-- The record the dedup loop retains for a group is exactly the first
group member whose priority dominates the whole group. -/
theorem combine_eq_find (c : CodeSuggestion) (g : List CodeSuggestion) :
    (c :: g).find? (fun t => (c :: g).all fun u => decide (u.priority ≤ t.priority)) =
      some (combine c g) := by
  obtain ⟨pre, post, hsplit, hlt⟩ := combine_first c g
  rw [hsplit]
  apply find?_append_cons
  · intro x hx
    have hx' : x.priority < (combine c g).priority := hlt x hx
    apply Bool.eq_false_iff.mpr
    intro hall
    rw [List.all_eq_true] at hall
    have hcm := hall (combine c g) (List.mem_append_right _ (List.mem_cons_self _ _))
    simp only [decide_eq_true_eq] at hcm
    omega
  · apply List.all_eq_true.mpr
    intro u hu
    simp only [decide_eq_true_eq]
    exact combine_le c g u (by rw [hsplit]; exact hu)

theorem wf_buildBestMap (l : List CodeSuggestion) :
    MapWF (buildBestMap l) ∧ KeysNodup (buildBestMap l) := by
  have hgen : ∀ (l' : List CodeSuggestion) (m : BestMap), MapWF m → KeysNodup m →
      MapWF (l'.foldl dedupStepFn m) ∧ KeysNodup (l'.foldl dedupStepFn m) := by
    intro l'
    induction l' with
    | nil => intro m h1 h2; exact ⟨h1, h2⟩
    | cons s l' ih =>
        intro m h1 h2
        obtain ⟨h1', h2'⟩ := wf_dedupStepFn m s h1 h2
        exact ih _ h1' h2'
  exact hgen l [] (by intro e he; cases he) (by simp [KeysNodup])

theorem dictGet_buildBestMap (l : List CodeSuggestion) (key : String × String) :
    dictGet (buildBestMap l) key =
      match groupOf key l with
      | [] => none
      | s :: rest => some (combine s rest) := by
  have h0 := dictGet_foldl key l []
  simpa [dictGet] using h0

/-- C1: the dedup step of `_filter_and_prioritize` keeps, for each dedup key
`(category, original_code)`, exactly one record when the key occurs in the
input (none otherwise), namely the FIRST input record of that group whose
priority dominates every group member's priority — so its priority is the
group maximum, and on ties the first-encountered record's other fields
survive (the loop compares with strict `>`). -/
theorem c1_dedup_keeps_first_max (l : List CodeSuggestion) (key : String × String) :
    (dedupValues l).filter (fun s => decide (skey s = key)) =
      ((groupOf key l).find?
        (fun t => (groupOf key l).all fun u => decide (u.priority ≤ t.priority))).toList
    ∧ ((dedupValues l).filter (fun s => decide (skey s = key))).length =
        (if groupOf key l = [] then 0 else 1) := by
  obtain ⟨hwf, hnd⟩ := wf_buildBestMap l
  have heq : (dedupValues l).filter (fun s => decide (skey s = key)) =
      (dictGet (buildBestMap l) key).toList :=
    filter_values_eq_get _ key hwf hnd
  have hget := dictGet_buildBestMap l key
  constructor
  · rw [heq, hget]
    cases hg : groupOf key l with
    | nil => simp
    | cons s rest =>
        exact congrArg Option.toList (combine_eq_find s rest).symm
  · rw [heq, hget]
    cases hg : groupOf key l with
    | nil => simp
    | cons s rest => simp

/-- C2 (amended): the aggregator's output is always sorted by descending
priority, then ascending category, then ascending title; that comparison is
total, and antisymmetric on the sort-key triples — but NOT on whole records,
so only reruns on the identical input sequence are guaranteed identical
output: two post-dedup records agreeing on priority, category and title keep
their relative input order (stable sort), and permuting such inputs permutes
the output (see the counterexample). -/
theorem c2_sort_deterministic_total_on_keys :
    (∀ l, List.Sorted keyRel (filter_and_prioritize l))
    ∧ (∀ a b : CodeSuggestion, keyRel a b ∨ keyRel b a)
    ∧ (∀ a b : CodeSuggestion, keyRel a b → keyRel b a → sortTriple a = sortTriple b) := by
  refine ⟨?_, ?_, ?_⟩
  · intro l
    exact List.Pairwise.sublist (List.take_sublist _ _) (List.sorted_insertionSort keyRel _)
  · intro a b
    exact total_of keyRel a b
  · intro a b hab hba
    exact keyLeB_antisymm a b hab hba

theorem c2_witness :
    List.Sorted keyRel
      (filter_and_prioritize
        [⟨"a", "t", "", "x", "", [], 3⟩, ⟨"a", "t", "", "y", "", [], 3⟩])
    ∧ sortTriple (⟨"a", "t", "", "x", "", [], 3⟩ : CodeSuggestion) =
        sortTriple (⟨"a", "t", "", "y", "", [], 3⟩ : CodeSuggestion) := by
  have h := c2_sort_deterministic_total_on_keys
  exact ⟨h.1 _, h.2.2 _ _ (by decide) (by decide)⟩

/-- C2 counterexample: the two inputs below are permutations of each other
(the same multiset of suggestions), yet aggregation orders their outputs
differently — the two records agree on priority, category and title but
differ in `original_code`, so the stable sort keeps input order. -/
theorem c2_counterexample :
    List.Perm
      [(⟨"a", "t", "", "x", "", [], 3⟩ : CodeSuggestion), ⟨"a", "t", "", "y", "", [], 3⟩]
      [⟨"a", "t", "", "y", "", [], 3⟩, ⟨"a", "t", "", "x", "", [], 3⟩]
    ∧ filter_and_prioritize
        [⟨"a", "t", "", "x", "", [], 3⟩, ⟨"a", "t", "", "y", "", [], 3⟩]
      ≠ filter_and_prioritize
        [⟨"a", "t", "", "y", "", [], 3⟩, ⟨"a", "t", "", "x", "", [], 3⟩] := by
  constructor
  · exact List.Perm.swap _ _ _
  · decide

/-- C3: the aggregator returns at most 10 suggestions; when the dedup step
leaves more than 10 records the output has length exactly 10, and it is the
top of the sorted order: every returned record ranks no worse than every
record cut off by the truncation. -/
theorem c3_truncation_bound (l : List CodeSuggestion) :
    (filter_and_prioritize l).length ≤ 10
    ∧ (10 < (dedupValues l).length → (filter_and_prioritize l).length = 10)
    ∧ filter_and_prioritize l = ((dedupValues l).insertionSort keyRel).take 10
    ∧ (∀ x ∈ filter_and_prioritize l, ∀ y ∈ ((dedupValues l).insertionSort keyRel).drop 10,
        keyRel x y) := by
  refine ⟨?_, ?_, rfl, ?_⟩
  · unfold filter_and_prioritize
    rw [List.length_take]
    exact min_le_left _ _
  · intro h
    have hlen : ((dedupValues l).insertionSort keyRel).length = (dedupValues l).length :=
      (List.perm_insertionSort keyRel _).length_eq
    unfold filter_and_prioritize
    rw [List.length_take]
    omega
  · intro x hx y hy
    have hs : List.Pairwise keyRel ((dedupValues l).insertionSort keyRel) :=
      List.sorted_insertionSort keyRel _
    rw [← List.take_append_drop 10 ((dedupValues l).insertionSort keyRel),
      List.pairwise_append] at hs
    exact hs.2.2 x hx y hy

/-- Eleven suggestions with distinct dedup keys, used to exercise the
truncation bound. -/
def elevenSuggestions : List CodeSuggestion :=
  [⟨"c", "a", "", "ca", "", [], 1⟩, ⟨"c", "b", "", "cb", "", [], 1⟩,
   ⟨"c", "c", "", "cc", "", [], 1⟩, ⟨"c", "d", "", "cd", "", [], 1⟩,
   ⟨"c", "e", "", "ce", "", [], 1⟩, ⟨"c", "f", "", "cf", "", [], 1⟩,
   ⟨"c", "g", "", "cg", "", [], 1⟩, ⟨"c", "h", "", "ch", "", [], 1⟩,
   ⟨"c", "i", "", "ci", "", [], 1⟩, ⟨"c", "j", "", "cj", "", [], 1⟩,
   ⟨"c", "k", "", "ck", "", [], 1⟩]

theorem c3_witness :
    (filter_and_prioritize elevenSuggestions).length = 10
    ∧ keyRel ⟨"c", "a", "", "ca", "", [], 1⟩ ⟨"c", "k", "", "ck", "", [], 1⟩ := by
  have h := c3_truncation_bound elevenSuggestions
  exact ⟨h.2.1 (by decide),
    h.2.2.2 ⟨"c", "a", "", "ca", "", [], 1⟩ (by decide) ⟨"c", "k", "", "ck", "", [], 1⟩ (by decide)⟩

example :
    filter_and_prioritize
      [⟨"performance", "Low", "d", "same-code", "", [], 1⟩,
       ⟨"performance", "High", "d", "same-code", "", [], 5⟩,
       ⟨"performance", "Mid", "d", "same-code", "", [], 3⟩] =
      [⟨"performance", "High", "d", "same-code", "", [], 5⟩] := by decide

example :
    filter_and_prioritize
      [⟨"performance", "Low priority", "", "", "", [], 1⟩,
       ⟨"performance", "High priority", "", "", "", [], 5⟩,
       ⟨"best_practices", "Medium priority", "", "", "", [], 3⟩] =
      [⟨"performance", "High priority", "", "", "", [], 5⟩,
       ⟨"best_practices", "Medium priority", "", "", "", [], 3⟩] := by decide
-- (Note: the first and second input records share the dedup key
-- `("performance", "")`, so only the priority-5 one survives; the repo's own
-- `test_suggestion_prioritization` overlooks this and indexes `filtered[2]`.)

/-! Orchestrator (`analyze_code`, `_combine_suggestions`, `_get_llm_analysis`,
`_analyze_code_thread` of `analyzer.py`).  Raw pattern-detector records and
structured external-analysis items are Python dicts read with `.get(key,
default)`; they are modelled as structures of `Option` fields (`none` =
key absent).  `ast.parse`, the pattern detector's output, the external
client's outcome and the wall-clock are inputs of the run, collected in
`PipelineEnv`; the list of `Stage`s returned alongside the result records
which pipeline stages executed. -/

/-- A raw record produced by a pattern-detector pass (a Python dict). -/
structure RawPattern where
  category : Option String := none
  title : Option String := none
  description : Option String := none
  code : Option String := none
  suggestion : Option String := none
  line_numbers : Option (List Nat) := none
  priority : Option Int := none
deriving DecidableEq, Repr

/-- One item of a structured external-analysis list (a Python dict). -/
structure LLMItem where
  builder_equivalent : Option String := none
  explanation : Option String := none
  original_code : Option String := none
  improved_code : Option String := none
  issue : Option String := none
deriving DecidableEq, Repr

/-- The structured external-analysis response (a Python dict; `none` models
an absent key, tested by `'key' in llm_result`). -/
structure LLMResult where
  summary : Option String := none
  builder_mapping : Option (List LLMItem) := none
  performance_optimizations : Option (List LLMItem) := none
  best_practices : Option (List LLMItem) := none
  general_suggestions : Option (List LLMItem) := none
deriving DecidableEq, Repr

/-- `_find_line_numbers` of `analyzer.py`: the simplified implementation
always returns `[]`. -/
def find_line_numbers (_code_snippet : String) : List Nat := []

/-- Normalization of one `builder_mapping` item in `_combine_suggestions`. -/
def builderSuggestion (item : LLMItem) : CodeSuggestion :=
  { category := "builder_mapping"
    title := "Builder: " ++ item.builder_equivalent.getD ("Component mapping")
    description := item.explanation.getD ("")
    original_code := item.original_code.getD ("")
    improved_code := item.builder_equivalent.getD ("")
    line_numbers := find_line_numbers (item.original_code.getD (""))
    priority := 3 }

/-- Normalization of one `performance_optimizations` item. -/
def performanceSuggestion (item : LLMItem) : CodeSuggestion :=
  { category := "performance"
    title := "Performance: " ++ item.issue.getD ("Optimization")
    description := item.explanation.getD ("")
    original_code := item.original_code.getD ("")
    improved_code := item.improved_code.getD ("")
    line_numbers := find_line_numbers (item.original_code.getD (""))
    priority := 4 }

/-- Normalization of one `best_practices` item. -/
def bestPracticeSuggestion (item : LLMItem) : CodeSuggestion :=
  { category := "best_practices"
    title := "Best Practice: " ++ item.issue.getD ("Improvement")
    description := item.explanation.getD ("")
    original_code := item.original_code.getD ("")
    improved_code := item.improved_code.getD ("")
    line_numbers := find_line_numbers (item.original_code.getD (""))
    priority := 2 }

/-- Normalization of one local pattern record: `.get` defaults apply only
when the key is absent; a present category or priority passes through
unchanged. -/
def rawToSuggestion (p : RawPattern) : CodeSuggestion :=
  { category := p.category.getD ("general")
    title := p.title.getD ("Pattern detected")
    description := p.description.getD ("")
    original_code := p.code.getD ("")
    improved_code := p.suggestion.getD ("")
    line_numbers := p.line_numbers.getD []
    priority := p.priority.getD 1 }

/-- `_combine_suggestions` of `analyzer.py`: external items first (builder
mapping, then performance, then best practices; an absent key contributes
nothing, exactly like iterating an empty list), then the local pattern
records; `general_suggestions` is never read. -/
def combine_suggestions (local_patterns : List RawPattern) (llm_result : LLMResult) :
    List CodeSuggestion :=
  (llm_result.builder_mapping.getD []).map builderSuggestion
    ++ (llm_result.performance_optimizations.getD []).map performanceSuggestion
    ++ (llm_result.best_practices.getD []).map bestPracticeSuggestion
    ++ local_patterns.map rawToSuggestion

/-- The placeholder structure `_get_llm_analysis` synthesizes when the
client is unconfigured or its call raises: all suggestion lists empty. -/
def llmPlaceholder (summary : String) : LLMResult :=
  { summary := some summary
    builder_mapping := some []
    performance_optimizations := some []
    best_practices := some []
    general_suggestions := some [] }

/-- `_get_llm_analysis` of `analyzer.py`: `configured` is
`llm_client.is_configured()` and `llmCall` the outcome of
`llm_client.analyze_code` (an `Except` models a raised exception). -/
def get_llm_analysis (configured : Bool) (llmCall : Except String LLMResult) : LLMResult :=
  if !configured then llmPlaceholder ("LLM not configured")
  else
    match llmCall with
    | .ok r => r
    | .error e => llmPlaceholder ("LLM analysis failed: " ++ e)

/-- The pipeline stages of `analyze_code`, recorded in execution order. -/
inductive Stage where
  | syntaxCheck
  | patternDetection
  | llmAnalysis
  | combineStage
  | filterStage
deriving DecidableEq, Repr

/-- Inputs of one `analyze_code` run: the `ast.parse` outcome, the local
pattern detector's records, whether the external client is configured, the
external call's outcome, and the elapsed wall-clock time at the point the
successful return is built. -/
structure PipelineEnv where
  parseResult : Except String Unit
  local_patterns : List RawPattern
  llmConfigured : Bool
  llmCallResult : Except String LLMResult
  elapsed : ℚ

/-- `analyze_code` of `analyzer.py`.  On a `SyntaxError` it returns
immediately; note that this early return passes no `analysis_time`
argument, so the dataclass default `0.0` is used, NOT the elapsed time.
The returned `Stage` list records which stages ran. -/
def analyze_code (env : PipelineEnv) : AnalysisResult × List Stage :=
  match env.parseResult with
  | .error e =>
      ({ summary := "Syntax error in code"
         suggestions := []
         success := false
         error_message := some ("Syntax error: " ++ e) },
       [Stage.syntaxCheck])
  | .ok _ =>
      let llm := get_llm_analysis env.llmConfigured env.llmCallResult
      let sugg := combine_suggestions env.local_patterns llm
      let final := filter_and_prioritize sugg
      ({ summary := llm.summary.getD ("Code analysis completed")
         suggestions := final
         success := true
         error_message := none
         analysis_time := env.elapsed },
       [Stage.syntaxCheck, Stage.patternDetection, Stage.llmAnalysis,
        Stage.combineStage, Stage.filterStage])

/-- C4 (amended): on a syntax failure `analyze_code` terminates immediately
with `success=false`, an error message naming the syntax error, an empty
suggestion list, and — amending the claim — `analysis_time` left at its
dataclass default `0.0` (the elapsed time is NOT recorded on this path);
no pattern detection, external call or aggregation stage runs. -/
theorem c4_syntax_failure_short_circuits (env : PipelineEnv) (e : String)
    (h : env.parseResult = .error e) :
    (analyze_code env).1.success = false
    ∧ (analyze_code env).1.suggestions = []
    ∧ (analyze_code env).1.error_message = some ("Syntax error: " ++ e)
    ∧ (analyze_code env).2 = [Stage.syntaxCheck]
    ∧ (analyze_code env).1.analysis_time = 0 := by
  unfold analyze_code
  rw [h]
  exact ⟨rfl, rfl, rfl, rfl, rfl⟩

theorem c4_witness :
    (analyze_code ⟨.error "invalid syntax", [], false, .error "unused", 5⟩).1.success = false
    ∧ (analyze_code ⟨.error "invalid syntax", [], false, .error "unused", 5⟩).1.suggestions = []
    ∧ (analyze_code ⟨.error "invalid syntax", [], false, .error "unused", 5⟩).1.error_message =
        some "Syntax error: invalid syntax"
    ∧ (analyze_code ⟨.error "invalid syntax", [], false, .error "unused", 5⟩).2 =
        [Stage.syntaxCheck]
    ∧ (analyze_code ⟨.error "invalid syntax", [], false, .error "unused", 5⟩).1.analysis_time = 0 :=
  c4_syntax_failure_short_circuits ⟨.error "invalid syntax", [], false, .error "unused", 5⟩
    "invalid syntax" rfl

/-- C4 counterexample: with 5 seconds elapsed, the syntax-failure result's
`analysis_time` is the default `0.0`, not the elapsed time — the code never
passes `analysis_time` on this return path. -/
theorem c4_counterexample :
    (analyze_code ⟨.error "invalid syntax", [], false, .error "unused", 5⟩).1.analysis_time = 0
    ∧ (⟨.error "invalid syntax", [], false, .error "unused", 5⟩ : PipelineEnv).elapsed = 5
    ∧ (analyze_code ⟨.error "invalid syntax", [], false, .error "unused", 5⟩).1.analysis_time ≠
        (⟨.error "invalid syntax", [], false, .error "unused", 5⟩ : PipelineEnv).elapsed := by
  refine ⟨rfl, rfl, ?_⟩
  intro hq
  norm_num [analyze_code] at hq

/-- C5 (amended): when the external client is configured but its call
raises, `_get_llm_analysis` converts the failure into the placeholder with
all suggestion lists empty and a summary noting the failure; the run still
succeeds (`success=true`), its summary is the failure note, and its
suggestion list is EXACTLY that of a pattern-only run (the run with an
unconfigured client) — so the external failure itself never removes local
suggestions, though the dedup and 10-item cap of the aggregator still apply
to every run (see the counterexample for why the claim's stronger "contains
all local pattern-detector suggestions" fails). -/
theorem c5_degrade_on_external_failure (env : PipelineEnv) (e : String)
    (hp : env.parseResult = .ok ())
    (hc : env.llmConfigured = true)
    (he : env.llmCallResult = .error e) :
    get_llm_analysis env.llmConfigured env.llmCallResult =
        llmPlaceholder ("LLM analysis failed: " ++ e)
    ∧ (analyze_code env).1.success = true
    ∧ (analyze_code env).1.summary = "LLM analysis failed: " ++ e
    ∧ (analyze_code env).1.suggestions =
        (analyze_code { env with llmConfigured := false }).1.suggestions := by
  have hllm : get_llm_analysis env.llmConfigured env.llmCallResult =
      llmPlaceholder ("LLM analysis failed: " ++ e) := by
    rw [hc, he]
    rfl
  have hcomb : ∀ s, combine_suggestions env.local_patterns (llmPlaceholder s) =
      env.local_patterns.map rawToSuggestion := by
    intro s
    simp [combine_suggestions, llmPlaceholder]
  refine ⟨hllm, ?_, ?_, ?_⟩
  · unfold analyze_code
    rw [hp]
  · unfold analyze_code
    rw [hp]
    simp only [hllm, llmPlaceholder, Option.getD_some]
  · unfold analyze_code
    rw [show ({ env with llmConfigured := false } : PipelineEnv).parseResult =
          Except.ok () from hp]
    dsimp only
    rw [hllm]
    rw [show get_llm_analysis false env.llmCallResult =
          llmPlaceholder "LLM not configured" from rfl]
    rw [hcomb, hcomb]

/-- Eleven raw local pattern records with distinct dedup keys, used to show
the truncation dropping a local suggestion. -/
def elevenRawPatterns : List RawPattern :=
  [{ category := some ("c"), title := some ("a"), code := some ("ca"), priority := some 1 },
   { category := some ("c"), title := some ("b"), code := some ("cb"), priority := some 1 },
   { category := some ("c"), title := some ("c"), code := some ("cc"), priority := some 1 },
   { category := some ("c"), title := some ("d"), code := some ("cd"), priority := some 1 },
   { category := some ("c"), title := some ("e"), code := some ("ce"), priority := some 1 },
   { category := some ("c"), title := some ("f"), code := some ("cf"), priority := some 1 },
   { category := some ("c"), title := some ("g"), code := some ("cg"), priority := some 1 },
   { category := some ("c"), title := some ("h"), code := some ("ch"), priority := some 1 },
   { category := some ("c"), title := some ("i"), code := some ("ci"), priority := some 1 },
   { category := some ("c"), title := some ("j"), code := some ("cj"), priority := some 1 },
   { category := some ("c"), title := some ("k"), code := some ("ck"), priority := some 1 }]

theorem c5_witness :
    get_llm_analysis
        (⟨.ok (), [{ category := some ("c") }], true, .error "boom", 0⟩ : PipelineEnv).llmConfigured
        (⟨.ok (), [{ category := some ("c") }], true, .error "boom", 0⟩ : PipelineEnv).llmCallResult =
      llmPlaceholder "LLM analysis failed: boom"
    ∧ (analyze_code ⟨.ok (), [{ category := some ("c") }], true, .error "boom", 0⟩).1.success = true
    ∧ (analyze_code ⟨.ok (), [{ category := some ("c") }], true, .error "boom", 0⟩).1.summary =
        "LLM analysis failed: boom"
    ∧ (analyze_code ⟨.ok (), [{ category := some ("c") }], true, .error "boom", 0⟩).1.suggestions =
        (analyze_code ⟨.ok (), [{ category := some ("c") }], false, .error "boom", 0⟩).1.suggestions :=
  c5_degrade_on_external_failure
    ⟨.ok (), [{ category := some ("c") }], true, .error "boom", 0⟩ "boom" rfl rfl rfl

/-- The record of `elevenRawPatterns` whose suggestion the truncation
drops. -/
def eleventhRawPattern : RawPattern :=
  { category := some ("c"), title := some ("k"), code := some ("ck"), priority := some 1 }

/-- C5 counterexample: with a configured-but-failing external client and 11
local pattern records with distinct dedup keys, the run succeeds but the
11th local suggestion is NOT contained in the final result — the 10-item
truncation removes it — refuting "still contains all local
pattern-detector suggestions". -/
theorem c5_counterexample :
    (analyze_code ⟨.ok (), elevenRawPatterns, true, .error "boom", 0⟩).1.success = true
    ∧ rawToSuggestion eleventhRawPattern ∈
        combine_suggestions elevenRawPatterns (get_llm_analysis true (.error "boom"))
    ∧ rawToSuggestion eleventhRawPattern ∉
        (analyze_code ⟨.ok (), elevenRawPatterns, true, .error "boom", 0⟩).1.suggestions := by
  refine ⟨rfl, by decide, by decide⟩

/-- The fixed category set of the data-model invariant. -/
def fixedCategories : List String :=
  ["builder_mapping", "performance", "best_practices", "general"]

/-- C8 (amended): every suggestion normalized from an external-analysis
item has priority in [1,5] (3, 4 or 2) and category in the fixed set; a
suggestion normalized from a raw pattern record carries the raw record's
category and priority unchanged (the `general` / `1` defaults apply only
when the key is absent — an unknown present category is NOT collapsed).
Hence the invariant holds for the whole output exactly on inputs whose raw
records already satisfy it — as the in-repo detector passes do. -/
theorem c8_invariant_conditional (local_patterns : List RawPattern) (llm : LLMResult) :
    (∀ s ∈ combine_suggestions local_patterns llm,
      (1 ≤ s.priority ∧ s.priority ≤ 5 ∧ s.category ∈ fixedCategories)
      ∨ ∃ p ∈ local_patterns,
          s.category = p.category.getD ("general") ∧ s.priority = p.priority.getD 1)
    ∧ ((∀ p ∈ local_patterns, 1 ≤ p.priority.getD 1 ∧ p.priority.getD 1 ≤ 5
          ∧ p.category.getD ("general") ∈ fixedCategories) →
        ∀ s ∈ combine_suggestions local_patterns llm,
          1 ≤ s.priority ∧ s.priority ≤ 5 ∧ s.category ∈ fixedCategories) := by
  have hmain : ∀ s ∈ combine_suggestions local_patterns llm,
      (1 ≤ s.priority ∧ s.priority ≤ 5 ∧ s.category ∈ fixedCategories)
      ∨ ∃ p ∈ local_patterns,
          s.category = p.category.getD ("general") ∧ s.priority = p.priority.getD 1 := by
    intro s hs
    unfold combine_suggestions at hs
    rw [List.mem_append] at hs
    rcases hs with hs | hs
    · rw [List.mem_append] at hs
      rcases hs with hs | hs
      · rw [List.mem_append] at hs
        rcases hs with hs | hs
        · obtain ⟨item, _, rfl⟩ := List.mem_map.mp hs
          exact Or.inl ⟨by norm_num [builderSuggestion], by norm_num [builderSuggestion],
            by simp [builderSuggestion, fixedCategories]⟩
        · obtain ⟨item, _, rfl⟩ := List.mem_map.mp hs
          exact Or.inl ⟨by norm_num [performanceSuggestion], by norm_num [performanceSuggestion],
            by simp [performanceSuggestion, fixedCategories]⟩
      · obtain ⟨item, _, rfl⟩ := List.mem_map.mp hs
        exact Or.inl ⟨by norm_num [bestPracticeSuggestion], by norm_num [bestPracticeSuggestion],
          by simp [bestPracticeSuggestion, fixedCategories]⟩
    · obtain ⟨p, hp, rfl⟩ := List.mem_map.mp hs
      exact Or.inr ⟨p, hp, rfl, rfl⟩
  refine ⟨hmain, ?_⟩
  intro hloc s hs
  rcases hmain s hs with h | ⟨p, hp, hcat, hpri⟩
  · exact h
  · obtain ⟨h1, h2, h3⟩ := hloc p hp
    rw [hcat, hpri]
    exact ⟨h1, h2, h3⟩

theorem c8_witness :
    1 ≤ (rawToSuggestion { category := some ("performance"), priority := some 4 }).priority
    ∧ (rawToSuggestion { category := some ("performance"), priority := some 4 }).priority ≤ 5
    ∧ (rawToSuggestion { category := some ("performance"), priority := some 4 }).category ∈
        fixedCategories :=
  (c8_invariant_conditional [{ category := some ("performance"), priority := some 4 }]
      { summary := some "s" }).2
    (by decide)
    (rawToSuggestion { category := some ("performance"), priority := some 4 })
    (by decide)

/-- C8 counterexample: a raw pattern record with the unknown category
`weird` and priority 9 reaches the normalized output unchanged — its
category is not collapsed to `general` and its priority is outside [1,5]. -/
theorem c8_counterexample :
    (⟨"weird", "Pattern detected", "", "", "", [], 9⟩ : CodeSuggestion) ∈
      combine_suggestions [{ category := some ("weird"), priority := some 9 }] {}
    ∧ "weird" ∉ fixedCategories
    ∧ ¬((9 : Int) ≤ 5) := by
  refine ⟨by decide, by decide, by decide⟩

/-- `AnalysisResult('Analysis failed', [], False, str(e))`: the degraded
result built in the `except` branch of `_analyze_code_thread`. -/
def degradedResult (e : String) : AnalysisResult :=
  { summary := "Analysis failed"
    suggestions := []
    success := false
    error_message := some e }

/-- `_analyze_code_thread` of `analyzer.py`.  `analysisOutcome` is the
outcome of `self.analyze_code(code)` and `callback` may itself raise
(`Except.error`).  Returns the list of arguments the callback was invoked
with, in order, together with the exception (if any) escaping the thread
body: the `try` block covers BOTH `analyze_code` and the first callback
invocation, and the `except` block's second `callback(...)` call is
unprotected. -/
def analyze_code_thread (analysisOutcome : Except String AnalysisResult)
    (callback : AnalysisResult → Except String Unit) :
    List AnalysisResult × Option String :=
  match analysisOutcome with
  | .ok result =>
      match callback result with
      | .ok _ => ([result], none)
      | .error e =>
          match callback (degradedResult e) with
          | .ok _ => ([result, degradedResult e], none)
          | .error e2 => ([result, degradedResult e], some e2)
  | .error e =>
      match callback (degradedResult e) with
      | .ok _ => ([degradedResult e], none)
      | .error e2 => ([degradedResult e], some e2)

/-- C9 (code bug): when the pipeline succeeds but the callback raises, the
worker body invokes the callback a SECOND time (with a degraded result) and
the second exception escapes the worker boundary — refuting the
exactly-once / never-throws guarantee on the code.  (When the callback
returns normally, it is invoked exactly once, third conjunct.) -/
theorem c9_callback_invoked_twice :
    (analyze_code_thread (.ok { summary := "ok", suggestions := [], success := true })
        (fun _ => .error "callback failed")).1 =
      [{ summary := "ok", suggestions := [], success := true },
       degradedResult ("callback failed")]
    ∧ (analyze_code_thread (.ok { summary := "ok", suggestions := [], success := true })
        (fun _ => .error "callback failed")).2 = some "callback failed"
    ∧ (analyze_code_thread (.ok { summary := "ok", suggestions := [], success := true })
        (fun _ => .ok ())).1 =
      [{ summary := "ok", suggestions := [], success := true }] :=
  ⟨rfl, rfl, rfl⟩

/-! Sanitizer and privacy scoring (`security.py`).  Python `str` is modelled
here as `List Char` (Python strings are code-point sequences and the
sanitizer slices by code-point index).  The `re` regular-expression engine
is Python standard library, not repository code, so `re.finditer` is an
oracle parameter `Finditer`; a `ReMatch` carries `match.start()`,
`match.end()` and `match.group()`.  `hashlib.md5` is embedded in full
(RFC 1321), with 32-bit words as `Nat` reduced mod `2^32`; its hex digests
agree with `hashlib` on the standard test vectors. -/

/-- Python `str` as a code-point sequence. -/
abbrev Text := List Char

/-- UTF-8 encoding of one code point (`str.encode()`). -/
def utf8Bytes (n : Nat) : List Nat :=
  if n < 128 then [n]
  else if n < 2048 then [192 + n / 64, 128 + n % 64]
  else if n < 65536 then [224 + n / 4096, 128 + (n / 64) % 64, 128 + n % 64]
  else [240 + n / 262144, 128 + (n / 4096) % 64, 128 + (n / 64) % 64, 128 + n % 64]

/-- `original.encode()`: UTF-8 bytes of a string. -/
def utf8Encode (t : Text) : List Nat := t.flatMap (fun c => utf8Bytes c.toNat)

/-- Modulus of 32-bit words. -/
def M32 : Nat := 4294967296

/-- 32-bit left rotation (for `x < 2^32`, `0 < s < 32`). -/
def rotl (x s : Nat) : Nat := ((x * 2 ^ s) % M32) + (x / 2 ^ (32 - s))

/-- 32-bit bitwise complement (for `x < 2^32`). -/
def mnot (x : Nat) : Nat := 4294967295 - x

/-- MD5 per-round left-rotation amounts (RFC 1321). -/
def md5s : List Nat :=
  [7, 12, 17, 22, 7, 12, 17, 22, 7, 12, 17, 22, 7, 12, 17, 22,
   5, 9, 14, 20, 5, 9, 14, 20, 5, 9, 14, 20, 5, 9, 14, 20,
   4, 11, 16, 23, 4, 11, 16, 23, 4, 11, 16, 23, 4, 11, 16, 23,
   6, 10, 15, 21, 6, 10, 15, 21, 6, 10, 15, 21, 6, 10, 15, 21]

/-- MD5 per-round additive constants (RFC 1321). -/
def md5K : List Nat :=
  [0xd76aa478, 0xe8c7b756, 0x242070db, 0xc1bdceee,
   0xf57c0faf, 0x4787c62a, 0xa8304613, 0xfd469501,
   0x698098d8, 0x8b44f7af, 0xffff5bb1, 0x895cd7be,
   0x6b901122, 0xfd987193, 0xa679438e, 0x49b40821,
   0xf61e2562, 0xc040b340, 0x265e5a51, 0xe9b6c7aa,
   0xd62f105d, 0x02441453, 0xd8a1e681, 0xe7d3fbc8,
   0x21e1cde6, 0xc33707d6, 0xf4d50d87, 0x455a14ed,
   0xa9e3e905, 0xfcefa3f8, 0x676f02d9, 0x8d2a4c8a,
   0xfffa3942, 0x8771f681, 0x6d9d6122, 0xfde5380c,
   0xa4beea44, 0x4bdecfa9, 0xf6bb4b60, 0xbebfbc70,
   0x289b7ec6, 0xeaa127fa, 0xd4ef3085, 0x04881d05,
   0xd9d4d039, 0xe6db99e5, 0x1fa27cf8, 0xc4ac5665,
   0xf4292244, 0x432aff97, 0xab9423a7, 0xfc93a039,
   0x655b59c3, 0x8f0ccc92, 0xffeff47d, 0x85845dd1,
   0x6fa87e4f, 0xfe2ce6e0, 0xa3014314, 0x4e0811a1,
   0xf7537e82, 0xbd3af235, 0x2ad7d2bb, 0xeb86d391]

/-- Little-endian byte expansion of `n` to the given byte count. -/
def leBytes (n : Nat) : Nat → List Nat
  | 0 => []
  | k + 1 => (n % 256) :: leBytes (n / 256) k

/-- MD5 message padding: `0x80`, zeros to 56 mod 64, then the 64-bit
little-endian bit length. -/
def md5Pad (msg : List Nat) : List Nat :=
  let len := msg.length
  let padLen := (119 - (len % 64)) % 64
  msg ++ [128] ++ List.replicate padLen 0 ++ leBytes ((len * 8) % (2 ^ 64)) 8

/-- Split into 64-byte blocks (fuel-based so that it reduces in the
kernel; the fuel `l.length` always suffices). -/
def chunks64Aux : Nat → List Nat → List (List Nat)
  | 0, _ => []
  | _, [] => []
  | fuel + 1, l => l.take 64 :: chunks64Aux fuel (l.drop 64)

/-- Split a padded message into its 64-byte blocks. -/
def chunks64 (l : List Nat) : List (List Nat) := chunks64Aux l.length l

/-- The `j`-th 32-bit little-endian word of a block. -/
def word (block : List Nat) (j : Nat) : Nat :=
  block.getD (4 * j) 0 + 256 * block.getD (4 * j + 1) 0
    + 65536 * block.getD (4 * j + 2) 0 + 16777216 * block.getD (4 * j + 3) 0

/-- One of the 64 MD5 rounds on state `(a, b, c, d)`. -/
def md5Round (block : List Nat) (st : Nat × Nat × Nat × Nat) (i : Nat) :
    Nat × Nat × Nat × Nat :=
  let (a, b, c, d) := st
  let fg : Nat × Nat :=
    if i < 16 then ((b &&& c) ||| (mnot b &&& d), i)
    else if i < 32 then ((d &&& b) ||| (mnot d &&& c), (5 * i + 1) % 16)
    else if i < 48 then (b ^^^ c ^^^ d, (3 * i + 5) % 16)
    else (c ^^^ (b ||| mnot d), (7 * i) % 16)
  let tmp := (a + fg.1 + md5K.getD i 0 + word block fg.2) % M32
  (d, (b + rotl tmp (md5s.getD i 0)) % M32, b, c)

/-- Process one 64-byte block. -/
def md5Block (st0 : Nat × Nat × Nat × Nat) (block : List Nat) : Nat × Nat × Nat × Nat :=
  let st := (List.range 64).foldl (md5Round block) st0
  ((st0.1 + st.1) % M32, (st0.2.1 + st.2.1) % M32,
   (st0.2.2.1 + st.2.2.1) % M32, (st0.2.2.2 + st.2.2.2) % M32)

/-- The 16-byte MD5 digest of a byte string. -/
def md5Digest (msg : List Nat) : List Nat :=
  let st := (chunks64 (md5Pad msg)).foldl md5Block
    (1732584193, 4023233417, 2562383102, 271733878)
  leBytes st.1 4 ++ leBytes st.2.1 4 ++ leBytes st.2.2.1 4 ++ leBytes st.2.2.2 4

/-- The lowercase hexadecimal alphabet. -/
def hexAlphabet : Text := ("0123456789abcdef").data

/-- One hex digit (indices above 15 cannot occur for digest bytes). -/
def hexDigit (n : Nat) : Char := hexAlphabet.getD n '0'

/-- Lowercase hex rendering of a byte string, two digits per byte. -/
def bytesToHex (bs : List Nat) : Text :=
  bs.flatMap (fun b => [hexDigit (b / 16), hexDigit (b % 16)])

/-- `hashlib.md5(t.encode()).hexdigest()` — 32 lowercase hex characters. -/
def md5hex (t : Text) : Text := bytesToHex (md5Digest (utf8Encode t))

example : md5hex (("abc").data) = ("900150983cd24fb0d6963f7d28e17f72").data := by decide

example : md5hex ([]) = ("d41d8cd98f00b204e9800998ecf8427e").data := by decide

/-- Tags for the eleven regular expressions of
`CodeSanitizer.sensitive_patterns` (the regex engine itself is Python
standard library, abstracted by `Finditer`). -/
inductive RegexId where
  | apiKey
  | token
  | secret
  | mysqlUrl
  | postgresqlUrl
  | mongodbUrl
  | unixUserPath
  | windowsUserPath
  | email
  | ipAddress
  | authUrl
deriving DecidableEq, Repr

/-- `self.sensitive_patterns`: the ordered `(pattern, kind)` rule list of
`security.py`. -/
def sensitive_patterns : List (RegexId × String) :=
  [(RegexId.apiKey, "API_KEY"),
   (RegexId.token, "TOKEN"),
   (RegexId.secret, "SECRET"),
   (RegexId.mysqlUrl, "DATABASE_URL"),
   (RegexId.postgresqlUrl, "DATABASE_URL"),
   (RegexId.mongodbUrl, "DATABASE_URL"),
   (RegexId.unixUserPath, "USER_PATH"),
   (RegexId.windowsUserPath, "USER_PATH"),
   (RegexId.email, "EMAIL"),
   (RegexId.ipAddress, "IP_ADDRESS"),
   (RegexId.authUrl, "AUTHENTICATED_URL")]

/-- One `re` match: `match.start()`, `match.end()`, `match.group()`. -/
structure ReMatch where
  start : Nat
  stop : Nat
  group : Text
deriving DecidableEq, Repr

/-- Oracle semantics of `re.finditer(pattern, text, re.IGNORECASE)`. -/
abbrev Finditer := RegexId → Text → List ReMatch

/-- One replacement record of `sanitize_code` (`'end'` is `stop`). -/
structure Replacement where
  original : Text
  replacement : Text
  type : String
  start : Nat
  stop : Nat
deriving DecidableEq, Repr

/-- One detection record of `check_for_sensitive_content`. -/
structure Detection where
  type : String
  content : Text
  start : Nat
  stop : Nat
  line : Nat
deriving DecidableEq, Repr

/-- Python's `str.replace(pat, rep)`: replace every non-overlapping
occurrence, scanning left to right.  Fuel-based so that it reduces in the
kernel; `s.length + 1` fuel always suffices.  (Python's special behaviour
for an empty pattern is irrelevant here: regex matches are non-empty.) -/
def replaceAllAux : Nat → Text → Text → Text → Text
  | 0, s, _, _ => s
  | fuel + 1, s, pat, rep =>
      if pat = [] then s
      else if pat.isPrefixOf s then rep ++ replaceAllAux fuel (s.drop pat.length) pat rep
      else
        match s with
        | [] => []
        | c :: rest => c :: replaceAllAux fuel rest pat rep

/-- `s.replace(pat, rep)`. -/
def replaceAll (s pat rep : Text) : Text := replaceAllAux (s.length + 1) s pat rep

/-- The deterministic placeholder `f'<{replacement_type}_{hash_value}>'`
with `hash_value = hashlib.md5(original.encode()).hexdigest()[:8]`. -/
def placeholderFor (kind : String) (original : Text) : Text :=
  ("<" ++ kind ++ "_").data ++ (md5hex original).take 8 ++ [('>' : Char)]

/-- The body of the inner `for match in matches` loop of `sanitize_code`:
replace in the running text and append the replacement record. -/
def sanitizeMatchStep (kind : String) (acc : Text × List Replacement) (m : ReMatch) :
    Text × List Replacement :=
  let original := m.group
  let replacement := placeholderFor kind original
  (replaceAll acc.1 original replacement,
   acc.2 ++ [{ original := original, replacement := replacement, type := kind,
               start := m.start, stop := m.stop }])

/-- The body of the outer `for pattern, replacement_type in
self.sensitive_patterns` loop of `sanitize_code`: the matches are computed
once against the CURRENT text, then folded. -/
def sanitizePatternStep (finditer : Finditer) (acc : Text × List Replacement)
    (pr : RegexId × String) : Text × List Replacement :=
  (finditer pr.1 acc.1).foldl (sanitizeMatchStep pr.2) acc

/-- `CodeSanitizer.sanitize_code` of `security.py`. -/
def sanitize_code (finditer : Finditer) (code : Text) : Text × List Replacement :=
  sensitive_patterns.foldl (sanitizePatternStep finditer) (code, [])

/-- The body of the pattern loop of `check_for_sensitive_content`: all
patterns run against the ORIGINAL text; `line` is
`code[:match.start()].count('\n') + 1`. -/
def checkPatternStep (finditer : Finditer) (code : Text) (acc : List Detection)
    (pr : RegexId × String) : List Detection :=
  acc ++ (finditer pr.1 code).map
    (fun m => { type := pr.2, content := m.group, start := m.start, stop := m.stop,
                line := (code.take m.start).count '\n' + 1 })

/-- `CodeSanitizer.check_for_sensitive_content` of `security.py`. -/
def check_for_sensitive_content (finditer : Finditer) (code : Text) : List Detection :=
  sensitive_patterns.foldl (checkPatternStep finditer code) []

/-- `risk_weights` of `PrivacyManager._calculate_privacy_risk`. -/
def risk_weights : List (String × Nat) :=
  [("API_KEY", 5), ("TOKEN", 5), ("SECRET", 5), ("DATABASE_URL", 4),
   ("AUTHENTICATED_URL", 4), ("EMAIL", 2), ("IP_ADDRESS", 2), ("USER_PATH", 1)]

/-- `risk_weights.get(content_type, 1)`. -/
def weightOf (t : String) : Nat :=
  match risk_weights.find? (fun p => decide (p.1 = t)) with
  | some p => p.2
  | none => 1

/-- `PrivacyManager._calculate_privacy_risk` of `security.py`: 1 when
nothing was detected, otherwise the running max of the kind weights
(started at 1), clamped by `min(_, 5)`. -/
def calculate_privacy_risk (sensitive_content : List Detection) : Nat :=
  if sensitive_content = [] then 1
  else
    min (sensitive_content.foldl (fun max_risk item => max max_risk (weightOf item.type)) 1) 5

/-- The dictionary returned by `PrivacyManager.analyze_code_privacy`. -/
structure PrivacyAnalysis where
  risk_score : Nat
  sensitive_content : List Detection
  sanitized_code : Text
  replacements : List Replacement
  safe_to_send : Bool
deriving DecidableEq, Repr

/-- `PrivacyManager.analyze_code_privacy` of `security.py`:
`safe_to_send = risk_score < 3`. -/
def analyze_code_privacy (finditer : Finditer) (code : Text) : PrivacyAnalysis :=
  let sensitive_content := check_for_sensitive_content finditer code
  let sc := sanitize_code finditer code
  let risk_score := calculate_privacy_risk sensitive_content
  { risk_score := risk_score
    sensitive_content := sensitive_content
    sanitized_code := sc.1
    replacements := sc.2
    safe_to_send := decide (risk_score < 3) }

theorem weightOf_le_5 (t : String) : weightOf t ≤ 5 := by
  unfold weightOf
  cases h : risk_weights.find? (fun p => decide (p.1 = t)) with
  | none => show (1 : Nat) ≤ 5; omega
  | some p =>
      have hp : p ∈ risk_weights := List.mem_of_find?_eq_some h
      have hall : ∀ q ∈ risk_weights, q.2 ≤ 5 := by decide
      exact hall p hp

theorem weightOf_ge_1 (t : String) : 1 ≤ weightOf t := by
  unfold weightOf
  cases h : risk_weights.find? (fun p => decide (p.1 = t)) with
  | none => show (1 : Nat) ≤ 1; omega
  | some p =>
      have hp : p ∈ risk_weights := List.mem_of_find?_eq_some h
      have hall : ∀ q ∈ risk_weights, 1 ≤ q.2 := by decide
      exact hall p hp

theorem riskFold_ge_init (l : List Detection) (i : Nat) :
    i ≤ l.foldl (fun max_risk item => max max_risk (weightOf item.type)) i := by
  induction l generalizing i with
  | nil => exact le_refl i
  | cons d l ih =>
      rw [List.foldl_cons]
      exact le_trans (le_max_left _ _) (ih _)

theorem riskFold_mem_le (l : List Detection) (i : Nat) (d : Detection) (hd : d ∈ l) :
    weightOf d.type ≤ l.foldl (fun max_risk item => max max_risk (weightOf item.type)) i := by
  induction l generalizing i with
  | nil => cases hd
  | cons t l ih =>
      rw [List.foldl_cons]
      rcases List.mem_cons.mp hd with h | h
      · rw [h]
        exact le_trans (le_max_right _ _) (riskFold_ge_init l _)
      · exact ih _ h

theorem riskFold_attained (l : List Detection) (i : Nat) :
    l.foldl (fun max_risk item => max max_risk (weightOf item.type)) i = i
    ∨ ∃ d ∈ l, l.foldl (fun max_risk item => max max_risk (weightOf item.type)) i =
        weightOf d.type := by
  induction l generalizing i with
  | nil => exact Or.inl rfl
  | cons t l ih =>
      rw [List.foldl_cons]
      rcases ih (max i (weightOf t.type)) with h | ⟨d, hd, h⟩
      · by_cases hw : weightOf t.type ≤ i
        · exact Or.inl (by rw [h, max_eq_left hw])
        · exact Or.inr ⟨t, List.mem_cons_self _ _,
            by rw [h, max_eq_right (le_of_lt (not_le.mp hw))]⟩
      · exact Or.inr ⟨d, List.mem_cons_of_mem _ hd, h⟩

theorem riskFold_le_5 (l : List Detection) (i : Nat) (hi : i ≤ 5) :
    l.foldl (fun max_risk item => max max_risk (weightOf item.type)) i ≤ 5 := by
  induction l generalizing i with
  | nil => exact hi
  | cons t l ih =>
      rw [List.foldl_cons]
      exact ih _ (max_le hi (weightOf_le_5 _))

/-- C7: the privacy risk score is 1 for an empty detection list, always
lies in [1,5], is an upper bound of — and is attained by — the severity
weights of the detected kinds (so it IS their maximum), the weight table
is credentials 5, database/authenticated URLs 4, email and IP 2, user path
1, any unknown kind 1, and the analysis reports `safe_to_send` true iff
the risk score is strictly below 3. -/
theorem c7_privacy_risk :
    (∀ l : List Detection, 1 ≤ calculate_privacy_risk l ∧ calculate_privacy_risk l ≤ 5)
    ∧ calculate_privacy_risk [] = 1
    ∧ (∀ (l : List Detection) (d : Detection), d ∈ l →
        weightOf d.type ≤ calculate_privacy_risk l)
    ∧ (∀ l : List Detection, l ≠ [] → ∃ d ∈ l, calculate_privacy_risk l = weightOf d.type)
    ∧ (weightOf ("API_KEY") = 5 ∧ weightOf ("TOKEN") = 5 ∧ weightOf ("SECRET") = 5
        ∧ weightOf ("DATABASE_URL") = 4 ∧ weightOf ("AUTHENTICATED_URL") = 4
        ∧ weightOf ("EMAIL") = 2 ∧ weightOf ("IP_ADDRESS") = 2 ∧ weightOf ("USER_PATH") = 1)
    ∧ (∀ t : String, t ∉ risk_weights.map (fun p => p.1) → weightOf t = 1)
    ∧ (∀ (f : Finditer) (code : Text),
        (analyze_code_privacy f code).safe_to_send = true ↔
          (analyze_code_privacy f code).risk_score < 3) := by
  refine ⟨?_, by simp [calculate_privacy_risk], ?_, ?_, by decide, ?_, ?_⟩
  · intro l
    unfold calculate_privacy_risk
    by_cases h : l = []
    · simp [h]
    · rw [if_neg h]
      exact ⟨le_min (riskFold_ge_init l 1) (by omega), min_le_right _ _⟩
  · intro l d hd
    unfold calculate_privacy_risk
    rw [if_neg (List.ne_nil_of_mem hd)]
    exact le_min (riskFold_mem_le l 1 d hd) (weightOf_le_5 _)
  · intro l hl
    unfold calculate_privacy_risk
    rw [if_neg hl, min_eq_left (riskFold_le_5 l 1 (by omega))]
    rcases riskFold_attained l 1 with h | ⟨d, hd, h⟩
    · cases l with
      | nil => exact absurd rfl hl
      | cons t l' =>
          refine ⟨t, List.mem_cons_self _ _, ?_⟩
          have h1 := riskFold_mem_le (t :: l') 1 t (List.mem_cons_self _ _)
          have h2 := weightOf_ge_1 t.type
          omega
    · exact ⟨d, hd, h⟩
  · intro t ht
    unfold weightOf
    cases h : risk_weights.find? (fun p => decide (p.1 = t)) with
    | none => rfl
    | some p =>
        exfalso
        have hp : p ∈ risk_weights := List.mem_of_find?_eq_some h
        have hpt : p.1 = t := by simpa using List.find?_some h
        exact ht (List.mem_map.mpr ⟨p, hp, hpt⟩)
  · intro f code
    unfold analyze_code_privacy
    dsimp only
    exact decide_eq_true_iff

theorem c7_witness :
    weightOf ("API_KEY") ≤
      calculate_privacy_risk [{ type := "API_KEY", content := [], start := 0, stop := 0, line := 1 }]
    ∧ weightOf ("UNKNOWN_KIND") = 1 := by
  have h := c7_privacy_risk
  refine ⟨h.2.2.1 [{ type := "API_KEY", content := [], start := 0, stop := 0, line := 1 }]
    { type := "API_KEY", content := [], start := 0, stop := 0, line := 1 } (by decide),
    h.2.2.2.2.2.1 ("UNKNOWN_KIND") (by decide)⟩

theorem replaceAllAux_nil (fuel : Nat) (pat rep : Text) (h : pat ≠ []) :
    replaceAllAux fuel [] pat rep = [] := by
  have hp : pat.isPrefixOf ([] : Text) = false := by
    cases pat with
    | nil => exact absurd rfl h
    | cons c cs => rfl
  cases fuel with
  | zero => rfl
  | succ k => simp [replaceAllAux, h, hp]

/-- Replacing a whole nonempty text by `rep` yields exactly `rep`
(`code.replace(code, rep) = rep`). -/
theorem replaceAll_self (s rep : Text) (h : s ≠ []) : replaceAll s s rep = rep := by
  obtain ⟨c, rest, rfl⟩ := List.exists_cons_of_ne_nil h
  have hpre : (c :: rest).isPrefixOf (c :: rest) = true := by
    rw [List.isPrefixOf_iff_prefix]
  unfold replaceAll
  show replaceAllAux ((c :: rest).length + 1) (c :: rest) (c :: rest) rep = rep
  unfold replaceAllAux
  rw [if_neg (List.cons_ne_nil c rest), if_pos hpre, List.drop_length,
    replaceAllAux_nil _ _ _ (List.cons_ne_nil c rest), List.append_nil]

/-- Patterns whose matcher returns nothing on the current text leave the
sanitizer's accumulator untouched. -/
theorem sanitize_fold_noop (finditer : Finditer) (ps : List (RegexId × String))
    (acc : Text × List Replacement)
    (h : ∀ pr ∈ ps, finditer pr.1 acc.1 = []) :
    ps.foldl (sanitizePatternStep finditer) acc = acc := by
  induction ps with
  | nil => rfl
  | cons pr ps ih =>
      rw [List.foldl_cons]
      have h0 : sanitizePatternStep finditer acc pr = acc := by
        unfold sanitizePatternStep
        rw [h pr (List.mem_cons_self _ _)]
        rfl
      rw [h0]
      exact ih fun q hq => h q (List.mem_cons_of_mem _ hq)

/-- Patterns whose matcher returns nothing on the text contribute no
detections. -/
theorem check_fold_noop (finditer : Finditer) (code : Text)
    (ps : List (RegexId × String)) (acc : List Detection)
    (h : ∀ pr ∈ ps, finditer pr.1 code = []) :
    ps.foldl (checkPatternStep finditer code) acc = acc := by
  induction ps generalizing acc with
  | nil => rfl
  | cons pr ps ih =>
      rw [List.foldl_cons]
      have h0 : checkPatternStep finditer code acc pr = acc := by
        unfold checkPatternStep
        rw [h pr (List.mem_cons_self _ _)]
        simp
      rw [h0]
      exact ih _ fun q hq => h q (List.mem_cons_of_mem _ hq)

theorem leBytes_length (n k : Nat) : (leBytes n k).length = k := by
  induction k generalizing n with
  | zero => rfl
  | succ k ih => simp [leBytes, ih]

theorem md5Digest_length (msg : List Nat) : (md5Digest msg).length = 16 := by
  unfold md5Digest
  simp [leBytes_length]

theorem bytesToHex_length (bs : List Nat) : (bytesToHex bs).length = 2 * bs.length := by
  induction bs with
  | nil => rfl
  | cons b bs ih =>
      unfold bytesToHex at ih ⊢
      rw [List.flatMap_cons, List.length_append, ih]
      simp only [List.length_cons, List.length_singleton, List.length_nil]
      omega

theorem md5hex_length (t : Text) : (md5hex t).length = 32 := by
  unfold md5hex
  rw [bytesToHex_length, md5Digest_length]

theorem hexDigit_mem (n : Nat) : hexDigit n ∈ hexAlphabet := by
  unfold hexDigit List.getD
  cases e : hexAlphabet.get? n with
  | none => decide
  | some c =>
      rw [Option.getD_some]
      exact List.get?_mem e

theorem md5hex_mem_hex (t : Text) : ∀ c ∈ md5hex t, c ∈ hexAlphabet := by
  intro c hc
  unfold md5hex bytesToHex at hc
  rw [List.mem_flatMap] at hc
  obtain ⟨b, _, hc⟩ := hc
  rcases List.mem_cons.mp hc with h | h
  · rw [h]; exact hexDigit_mem _
  · rcases List.mem_cons.mp h with h' | h'
    · rw [h']; exact hexDigit_mem _
    · cases h'

/-- The tail of the rule list after the API-key rule (which comes first). -/
def sensitive_patterns_tail : List (RegexId × String) := sensitive_patterns.tail

theorem sensitive_patterns_split :
    sensitive_patterns = (RegexId.apiKey, "API_KEY") :: sensitive_patterns_tail := rfl

theorem sensitive_patterns_tail_ne :
    ∀ pr ∈ sensitive_patterns_tail, pr.1 ≠ RegexId.apiKey := by decide

/-- C6: (a) on a text where no sensitive-pattern rule matches, the
sanitizer returns the text unchanged with an empty replacement list and the
checker detects nothing; (b) on a text that IS a single credential-like
assignment literal (the API-key rule matches it, once, as the whole text,
and no other rule matches anything), the sanitized output is exactly the
placeholder — which contains no occurrence of the matched text — there is
exactly one detection and its kind is the credential family `API_KEY`, and
the placeholder has the deterministic form `<API_KEY_h>` where `h` is the
first 8 hex digits of the MD5 of the exact matched text (`md5hex` is a
function, so equal matched texts always yield equal placeholders). -/
theorem c6_sanitizer_roundtrip :
    (∀ (finditer : Finditer) (code : Text),
      (∀ pr ∈ sensitive_patterns, finditer pr.1 code = []) →
      sanitize_code finditer code = (code, [])
      ∧ check_for_sensitive_content finditer code = [])
    ∧
    (∀ (finditer : Finditer) (code : Text) (m : ReMatch),
      finditer RegexId.apiKey code = [m] →
      (∀ pr ∈ sensitive_patterns, pr.1 ≠ RegexId.apiKey → ∀ s, finditer pr.1 s = []) →
      m.group = code →
      code ≠ [] →
      (placeholderFor ("API_KEY") m.group).length < m.group.length →
      sanitize_code finditer code =
          (placeholderFor ("API_KEY") m.group,
           [{ original := m.group, replacement := placeholderFor ("API_KEY") m.group,
              type := "API_KEY", start := m.start, stop := m.stop }])
      ∧ ¬(m.group <:+: (sanitize_code finditer code).1)
      ∧ check_for_sensitive_content finditer code =
          [{ type := "API_KEY", content := m.group, start := m.start, stop := m.stop,
             line := (code.take m.start).count '\n' + 1 }]
      ∧ placeholderFor ("API_KEY") m.group =
          ("<API_KEY_").data ++ (md5hex m.group).take 8 ++ [('>' : Char)]
      ∧ ((md5hex m.group).take 8).length = 8
      ∧ (∀ c ∈ (md5hex m.group).take 8, c ∈ hexAlphabet)) := by
  constructor
  · intro finditer code h
    constructor
    · exact sanitize_fold_noop finditer sensitive_patterns (code, []) h
    · exact check_fold_noop finditer code sensitive_patterns [] h
  · intro finditer code m h1 h3 h2 hne hlen
    have hgrp_ne : m.group ≠ [] := by rw [h2]; exact hne
    have htail : ∀ pr ∈ sensitive_patterns_tail, pr.1 ≠ RegexId.apiKey :=
      sensitive_patterns_tail_ne
    have htail_mem : ∀ pr ∈ sensitive_patterns_tail, pr ∈ sensitive_patterns := by
      intro pr hpr
      rw [sensitive_patterns_split]
      exact List.mem_cons_of_mem _ hpr
    have hsan : sanitize_code finditer code =
        (placeholderFor ("API_KEY") m.group,
         [{ original := m.group, replacement := placeholderFor ("API_KEY") m.group,
            type := "API_KEY", start := m.start, stop := m.stop }]) := by
      unfold sanitize_code
      rw [sensitive_patterns_split, List.foldl_cons]
      have hstep : sanitizePatternStep finditer (code, []) (RegexId.apiKey, "API_KEY") =
          (placeholderFor ("API_KEY") m.group,
           [{ original := m.group, replacement := placeholderFor ("API_KEY") m.group,
              type := "API_KEY", start := m.start, stop := m.stop }]) := by
        unfold sanitizePatternStep
        dsimp only
        rw [h1, List.foldl_cons, List.foldl_nil]
        unfold sanitizeMatchStep
        dsimp only
        rw [← h2, replaceAll_self m.group _ hgrp_ne]
        rfl
      rw [hstep]
      exact sanitize_fold_noop finditer sensitive_patterns_tail _
        fun pr hpr => h3 pr (htail_mem pr hpr) (htail pr hpr) _
    have hchk : check_for_sensitive_content finditer code =
        [{ type := "API_KEY", content := m.group, start := m.start, stop := m.stop,
           line := (code.take m.start).count '\n' + 1 }] := by
      unfold check_for_sensitive_content
      rw [sensitive_patterns_split, List.foldl_cons]
      have hstep : checkPatternStep finditer code [] (RegexId.apiKey, "API_KEY") =
          [{ type := "API_KEY", content := m.group, start := m.start, stop := m.stop,
             line := (code.take m.start).count '\n' + 1 }] := by
        unfold checkPatternStep
        dsimp only
        rw [h1]
        rfl
      rw [hstep]
      exact check_fold_noop finditer code sensitive_patterns_tail _
        fun pr hpr => h3 pr (htail_mem pr hpr) (htail pr hpr) code
    refine ⟨hsan, ?_, hchk, rfl, ?_, ?_⟩
    · rw [hsan]
      dsimp only
      intro hinf
      have := hinf.length_le
      omega
    · rw [List.length_take, md5hex_length]
      decide
    · intro c hc
      exact md5hex_mem_hex m.group c (List.mem_of_mem_take hc)

/-- A single credential-like assignment literal (36 characters). -/
def demoCredentialText : Text := ("api_key = \"aaaaaaaaaaaaaaaaaaaaaaaa\"").data

/-- The API-key rule's match covering the whole demo text. -/
def demoMatch : ReMatch := { start := 0, stop := 36, group := demoCredentialText }

/-- Oracle: the API-key regex matches the demo text once; nothing else
matches anything. -/
def demoFinditer : Finditer := fun p s =>
  if p = RegexId.apiKey ∧ s = demoCredentialText then [demoMatch] else []

theorem c6_witness :
    sanitize_code demoFinditer demoCredentialText =
        (placeholderFor ("API_KEY") demoCredentialText,
         [{ original := demoCredentialText,
            replacement := placeholderFor ("API_KEY") demoCredentialText,
            type := "API_KEY", start := 0, stop := 36 }])
    ∧ check_for_sensitive_content demoFinditer demoCredentialText =
        [{ type := "API_KEY", content := demoCredentialText, start := 0, stop := 36,
           line := 1 }]
    ∧ sanitize_code (fun _ _ => []) (("print(1)").data) = (("print(1)").data, []) := by
  have hb := c6_sanitizer_roundtrip.2 demoFinditer demoCredentialText demoMatch
    (by decide)
    (by intro pr hpr hne s; exact if_neg (fun hand => hne hand.1))
    rfl
    (by decide)
    (by decide)
  have ha := c6_sanitizer_roundtrip.1 (fun _ _ => []) (("print(1)").data)
    (by intro pr hpr; rfl)
  exact ⟨hb.1, hb.2.2.1, ha.1⟩

/-! Prompt builder (`prompts.py`).  The template strings are embedded
verbatim (f-string interpolations of `base_context` become explicit
concatenation; doubled braces of the f-strings are the literal braces of
the JSON schema).  `str.split(sep)` and `'\n'.join` are modelled by
`pySplit` and `String.intercalate`. -/

/-- `PromptTemplates.get_base_context` of `prompts.py`. -/
def get_base_context : String :=
  "You are an expert in PsychoPy, a Python library for creating psychology experiments.\n\nPsychoPy has two main interfaces:\n1. Builder: Visual interface with components like TrialHandler, TextStim, ImageStim, etc.\n2. Coder: Python scripting interface for more complex experiments\n\nKey PsychoPy concepts:\n- Stimuli: Visual, auditory, or other sensory components (TextStim, ImageStim, SoundStim)\n- TrialHandler: Manages trial sequences and data collection\n- Clock: For precise timing (core.Clock, core.CountdownTimer)\n- Window: The main display surface\n- Event handling: Keyboard, mouse input (event.getKeys, mouse.Mouse)\n- Data collection: ExperimentHandler, TrialHandler for saving results\n\nCommon performance patterns:\n- Create stimuli OUTSIDE loops, update properties INSIDE loops\n- Use numpy arrays for vectorized operations\n- Pre-load images/sounds before trials start\n- Use frame-based timing for animations\n\nBest practices:\n- Define constants for magic numbers (keys, colors, positions)\n- Separate stimulus creation from trial logic\n- Use appropriate timing methods (frames vs. seconds)\n- Proper resource cleanup (win.close(), core.quit())"

/-- `PromptTemplates.get_analysis_prompt`: the comprehensive all-categories analysis prompt, an f-string `base_context` followed by the literal tail. -/
def get_analysis_prompt : String :=
  get_base_context ++ "\n\nAnalyze the provided PsychoPy code and provide suggestions in the following JSON format:\n\n\x7b\n    \"summary\": \"Brief description of what the code does\",\n    \"builder_mapping\": [\n        \x7b\n            \"original_code\": \"specific code snippet\",\n            \"description\": \"what this code does\",\n            \"builder_equivalent\": \"suggested Builder component(s)\",\n            \"explanation\": \"why this mapping makes sense\"\n        \x7d\n    ],\n    \"performance_optimizations\": [\n        \x7b\n            \"issue\": \"description of performance issue\",\n            \"original_code\": \"problematic code snippet\",\n            \"improved_code\": \"optimized version\",\n            \"explanation\": \"why this is better\"\n        \x7d\n    ],\n    \"best_practices\": [\n        \x7b\n            \"issue\": \"description of best practice violation\",\n            \"original_code\": \"problematic code snippet\",\n            \"improved_code\": \"improved version\",\n            \"explanation\": \"why this follows best practices\"\n        \x7d\n    ],\n    \"general_suggestions\": [\n        \"Additional suggestions that don\x27t fit other categories\"\n    ]\n\x7d\n\nFocus on:\n1. Identifying experiment structures that could be simplified with Builder components\n2. Finding performance bottlenecks (especially in loops)\n3. Suggesting PsychoPy-specific best practices\n4. Recommending proper resource management\n\nBe specific in your suggestions and provide concrete code examples."

/-- `PromptTemplates.get_builder_mapping_prompt`: the Builder-mapping focused prompt, an f-string `base_context` followed by the literal tail. -/
def get_builder_mapping_prompt : String :=
  get_base_context ++ "\n\nFocus specifically on identifying code patterns that could be implemented more easily using PsychoPy Builder components.\n\nLook for:\n1. Trial loops → TrialHandler component\n2. Stimulus presentation sequences → Component sequences\n3. Response collection → Keyboard/Mouse components\n4. Data saving → Data output components\n5. Condition handling → Loop components with condition files\n\nCommon patterns to identify:\n- `for trial in range(n):` → TrialHandler with nReps=n\n- `visual.TextStim(...)` created in loops → TextStim component\n- `event.waitKeys()` → Keyboard component\n- Manual CSV writing → automatic data collection\n- Condition randomization → randomized loop\n\nProvide specific Builder component recommendations with explanations."

/-- `PromptTemplates.get_performance_prompt`: the performance focused prompt, an f-string `base_context` followed by the literal tail. -/
def get_performance_prompt : String :=
  get_base_context ++ "\n\nFocus specifically on performance optimization opportunities.\n\nLook for:\n1. Stimulus creation inside loops (should be outside)\n2. Inefficient loops that could use numpy vectorization\n3. Resource loading during trials (should be pre-loaded)\n4. Unnecessary object creation/destruction\n5. Inefficient timing methods\n\nCommon anti-patterns:\n- `visual.TextStim(...)` inside trial loops\n- Python loops for coordinate calculations\n- Loading images/sounds during trials\n- Creating new objects every frame\n- Using time.sleep() instead of frame-based timing\n\nProvide specific optimized code examples with performance explanations."

/-- `PromptTemplates.get_best_practices_prompt`: the best-practices focused prompt, an f-string `base_context` followed by the literal tail. -/
def get_best_practices_prompt : String :=
  get_base_context ++ "\n\nFocus specifically on PsychoPy best practices and coding standards.\n\nLook for:\n1. Magic numbers that should be constants\n2. Hardcoded values that should be configurable\n3. Missing error handling\n4. Improper resource cleanup\n5. Poor code organization\n6. Inconsistent naming conventions\n\nBest practice areas:\n- Define constants for keys, colors, positions, timing\n- Use descriptive variable names\n- Separate configuration from logic\n- Proper exception handling\n- Resource cleanup (win.close(), core.quit())\n- Consistent code formatting\n- Appropriate comments and documentation\n\nProvide specific improved code examples following PsychoPy conventions."

/-- `enabled_features.get(key, False)` on the feature-flag dict. -/
def getFlag (d : List (String × Bool)) (k : String) : Bool :=
  match d.find? (fun p => decide (p.1 = k)) with
  | some p => p.2
  | none => false

/-- Fuel-based splitter underlying `pySplit` (`cur` is the accumulator of
the current segment, reversed). -/
def splitOnAux : Nat → Text → Text → Text → List Text
  | 0, _, _, cur => [cur.reverse]
  | fuel + 1, s, sep, cur =>
      if sep.isPrefixOf s then cur.reverse :: splitOnAux fuel (s.drop sep.length) sep []
      else
        match s with
        | [] => [cur.reverse]
        | c :: rest => splitOnAux fuel rest sep (c :: cur)

/-- Python's `s.split(sep)` for a non-empty separator: split on every
non-overlapping occurrence, scanning left to right. -/
def pySplit (s sep : String) : List String :=
  if sep.data = [] then [s]
  else (splitOnAux (s.data.length + 1) s.data sep.data []).map String.mk

/-- `PromptBuilder.build_analysis_prompt` of `prompts.py`:
`all(self.enabled_features.values())` selects the comprehensive prompt
(vacuously true on an empty dict); otherwise a base-context preamble plus
one focused section per enabled flag (each section is the category
prompt's text after the shared base context, via `.split(base_context)[1]`),
joined with newlines. -/
def build_analysis_prompt (enabled_features : List (String × Bool)) : String :=
  if (enabled_features.map (·.2)).all (fun b => b) then
    get_analysis_prompt
  else
    let s0 := [get_base_context]
    let s1 :=
      if getFlag enabled_features ("builder_mapping") then
        s0 ++ ["\nFocus on Builder component mapping:",
               (pySplit get_builder_mapping_prompt get_base_context).getD 1 ""]
      else s0
    let s2 :=
      if getFlag enabled_features ("performance_optimization") then
        s1 ++ ["\nFocus on performance optimization:",
               (pySplit get_performance_prompt get_base_context).getD 1 ""]
      else s1
    let s3 :=
      if getFlag enabled_features ("best_practices") then
        s2 ++ ["\nFocus on best practices:",
               (pySplit get_best_practices_prompt get_base_context).getD 1 ""]
      else s2
    String.intercalate "\n" s3

/-- C10: with an EMPTY feature map, `all({}.values())` is vacuously true,
so `build_analysis_prompt` returns the full comprehensive all-categories
prompt — which strictly extends the base context — whereas a map with all
three flags explicitly disabled yields the base context alone; a caller
that enables no categories therefore still sends instructions for every
category externally. -/
theorem append_ne_self_of_ne_nil (s t : String) (h : t.data ≠ []) : s ++ t ≠ s := by
  intro he
  apply h
  have hd : (s ++ t).data = s.data := congrArg String.data he
  rw [String.data_append] at hd
  have := congrArg List.length hd
  rw [List.length_append] at this
  exact List.eq_nil_of_length_eq_zero (by omega)

/-- C10: with an EMPTY feature map, `all({}.values())` is vacuously true,
so `build_analysis_prompt` returns the full comprehensive all-categories
prompt — which strictly extends the base context — whereas a map with all
three flags explicitly disabled yields the base context alone; a caller
that enables no categories therefore still sends instructions for every
category externally. -/
theorem c10_empty_features_full_prompt :
    build_analysis_prompt [] = get_analysis_prompt
    ∧ get_analysis_prompt ≠ get_base_context
    ∧ build_analysis_prompt
        [("builder_mapping", false), ("performance_optimization", false),
         ("best_practices", false)] = get_base_context := by
  refine ⟨rfl, ?_, ?_⟩
  · unfold get_analysis_prompt
    exact append_ne_self_of_ne_nil _ _ (by decide)
  · rfl
